import Mathlib

/-!
Verification development for the MXMessage post-processing tools:
`apply-box-wrapping.py` (heap-indirection pass over generated Rust structs)
and `generate-common.py` (duplicate-type consolidation pass).

The embedding is a shallow one: files are modelled as lists of struct
definitions, a struct as a name with a list of `(field name, declared type)`
pairs, and the regex-based helpers of the source are translated into
executable functions over `List Char` / `String`.
-/

namespace MX

/-! ### Generic association-list and string helpers -/

def lookupKV {β : Type} : List (String × β) → String → Option β
  | [], _ => none
  | (k, v) :: rest, q => if k == q then some v else lookupKV rest q

/-- Python `dict` assignment: overwrite in place, else append at the end. -/
def insertKV {β : Type} : List (String × β) → String → β → List (String × β)
  | [], k, v => [(k, v)]
  | (k', v') :: rest, k, v =>
    if k' == k then (k', v) :: rest else (k', v') :: insertKV rest k v

/-- Python `defaultdict(list)` append: extend the list at the key, else add the key. -/
def appendKV : List (String × List String) → String → String → List (String × List String)
  | [], k, v => [(k, [v])]
  | (k', vs) :: rest, k, v =>
    if k' == k then (k', vs ++ [v]) :: rest else (k', vs) :: appendKV rest k v

def keyMem {β : Type} (l : List (String × β)) (k : String) : Bool :=
  l.any (fun e => e.1 == k)

/-- Python `set.add`. -/
def insertUnique (l : List String) (k : String) : List String :=
  if l.contains k then l else l ++ [k]

def dedupStr (l : List String) : List String := l.foldl insertUnique []

def isPrefixC : List Char → List Char → Bool
  | [], _ => true
  | _ :: _, [] => false
  | a :: as, b :: bs => a == b && isPrefixC as bs

def containsAtC (pat : List Char) : List Char → Bool
  | [] => isPrefixC pat []
  | s@(_ :: rest) => isPrefixC pat s || containsAtC pat rest

/-- `pat in s` on strings (Python substring test). -/
def strContains (s pat : String) : Bool := containsAtC pat.toList s.toList

def replaceFirstC (pat repl : List Char) : List Char → List Char
  | [] => []
  | s@(c :: rest) =>
    if isPrefixC pat s then repl ++ s.drop pat.length
    else c :: replaceFirstC pat repl rest

/-! ### `_is_primitive_type` -/

def primitives : List String :=
  ["String", "bool", "f64", "f32", "u64", "i64", "u32", "i32",
   "u16", "i16", "u8", "i8", "usize", "isize", "char"]

def isPrimitive (t : String) : Bool := primitives.contains t

/-! ### `_extract_core_type`

`re.sub(r'Box<(.+?)>', r'\1', ft)` followed by searches for `Vec<(\w+)>`,
`Option<(\w+)>` and `^(\w+)`. -/

def isWordChar (c : Char) : Bool := c.isAlphanum || c == '_'

/-- Split the text after a `Box<` at the first `>` preceded by at least one
`.`-matchable (non-newline) character: the semantics of non-greedy `(.+?)>`. -/
def grabTo : List Char → Option (List Char × List Char)
  | [] => none
  | '>' :: rest => some ([], rest)
  | '\n' :: _ => none
  | c :: rest => (grabTo rest).map (fun p => (c :: p.1, p.2))

def grabContent : List Char → Option (List Char × List Char)
  | [] => none
  | c :: rest =>
    if c == '\n' then none
    else (grabTo rest).map (fun p => (c :: p.1, p.2))

/-- One fuel unit per consumed character suffices; `re.sub` continues scanning
after each replacement without rescanning the replacement text. -/
def boxStripGo : Nat → List Char → List Char
  | 0, s => s
  | _ + 1, [] => []
  | n + 1, s@(c :: rest) =>
    if isPrefixC "Box<".toList s then
      match grabContent (s.drop 4) with
      | some (content, after) => content ++ boxStripGo n after
      | none => c :: boxStripGo n rest
    else c :: boxStripGo n rest

def boxStrip (s : List Char) : List Char := boxStripGo s.length s

/-- Leftmost match of `Vec<(\w+)>` (or `Option<(\w+)>` etc.): at each position,
a literal opener followed by a nonempty maximal word run and `>`. -/
def searchWrapped (opener : List Char) : List Char → Option (List Char)
  | [] => none
  | s@(_ :: rest) =>
    if isPrefixC opener s then
      let w := (s.drop opener.length).takeWhile isWordChar
      let r := (s.drop opener.length).dropWhile isWordChar
      if !(w.isEmpty) && (match r with | '>' :: _ => true | _ => false) then some w
      else searchWrapped opener rest
    else searchWrapped opener rest

def wordRun (s : List Char) : Option (List Char) :=
  let w := s.takeWhile isWordChar
  if w.isEmpty then none else some w

def extractCore (ft : String) : String :=
  let s := boxStrip ft.toList
  match searchWrapped "Vec<".toList s with
  | some w => String.mk w
  | none =>
    match searchWrapped "Option<".toList s with
    | some w => String.mk w
    | none =>
      match wordRun s with
      | some w => String.mk w
      | none => String.mk s

/-! ### Data model of the indirection tool (`apply-box-wrapping.py`)

A file is a list of struct definitions; a struct is its name together with
its fields as `(field name, declared type)` pairs, in source order. -/

abbrev FieldT := String × String

abbrev StructT := String × List FieldT

abbrev FileT := List StructT

abbrev StructsMap := List (String × List (String × String × String))

abbrev Counts := List (String × Nat)

abbrev Memo := List (String × Nat)

/-- `BoxConfig`: the regex pattern lists are modelled as the predicates they
denote on type names. -/
structure BoxConfig where
  always_box_types : List String
  box_in_vec_patterns : List (String → Bool)
  box_vec_if_parent_matches : List (String → Bool)
  min_fields_to_box : Nat
  max_nesting_depth : Nat
  use_size_heuristic : Bool
  use_pattern_matching : Bool
  use_nesting_analysis : Bool

/-- Field parsing inside `parse_file`: each field keyed by name (dict
overwrite on duplicates), carrying `(field_type, core_type)`. -/
def parseFieldsP (flds : List FieldT) : List (String × String × String) :=
  flds.foldl (fun acc fl => insertKV acc fl.1 (fl.2, extractCore fl.2)) []

/-- `parse_file`: the per-file `struct name -> fields` dict. -/
def structsOfFile (f : FileT) : StructsMap :=
  f.foldl (fun acc st => insertKV acc st.1 (parseFieldsP st.2)) []

/-- `parse_file`'s update of the analyzer-wide `struct_fields_count`: the raw
match count of fields (list length), accumulated across files. -/
def countsUpdate (counts : Counts) (f : FileT) : Counts :=
  f.foldl (fun acc st => insertKV acc st.1 st.2.length) counts

/-- `calculate_nesting_depth`: memoized depth with a per-traversal visited
set; `fuel` bounds the recursion depth (the Python recursion is bounded by
the number of structs, see the stabilization theorem for claim C9). -/
def calcNestingDepth (structs : StructsMap) : Nat → List String → Memo → String → Nat × Memo
  | 0, _, memo, _ => (0, memo)
  | f + 1, visited, memo, name =>
    match lookupKV memo name with
    | some d => (d, memo)
    | none =>
      if name ∈ visited then (0, memo)
      else
        match lookupKV structs name with
        | none => (0, insertKV memo name 0)
        | some fields =>
          let r := fields.foldl (fun (p : Nat × Memo) fld =>
            if isPrimitive fld.2.2 then p
            else if keyMem structs fld.2.2 then
              let q := calcNestingDepth structs f (name :: visited) p.2 fld.2.2
              (Nat.max p.1 (q.1 + 1), q.2)
            else p) (0, memo)
          (r.1, insertKV r.2 name r.1)

/-- Fuel that always suffices for `calcNestingDepth` (claim C9). -/
def structsBound (structs : StructsMap) : Nat := structs.length + 1

/-- `should_box_field`, returning the decision and the updated depth memo. -/
def shouldBoxField (cfg : BoxConfig) (structs : StructsMap) (counts : Counts) (memo : Memo)
    (structName fieldType coreType : String) : Bool × Memo :=
  if isPrimitive coreType then (false, memo)
  else if strContains fieldType "Box<" then (false, memo)
  else if cfg.always_box_types.contains coreType then (true, memo)
  else if cfg.use_pattern_matching && strContains fieldType "Vec<"
      && (cfg.box_in_vec_patterns.any (fun p => p coreType)
          || cfg.box_vec_if_parent_matches.any (fun p => p structName)) then (true, memo)
  else if cfg.use_size_heuristic
      && (match lookupKV counts coreType with
          | some cnt => decide (cfg.min_fields_to_box ≤ cnt)
          | none => false)
      && strContains fieldType "Vec<" then (true, memo)
  else if cfg.use_nesting_analysis && strContains fieldType "Vec<" && keyMem structs coreType then
    let r := calcNestingDepth structs (structsBound structs) [] memo coreType
    (decide (cfg.max_nesting_depth ≤ r.1), r.2)
  else (false, memo)

/-- The textual edit `apply_boxing` performs on a selected field:
`Vec<core> -> Vec<Box<core>>` (first occurrence, as the anchored `re.sub`
does), or `core -> Box<core>` when the declared type is exactly the core;
`none` when neither rewrite applies (no textual change, no reported change). -/
def boxFieldEdit (ft core : String) : Option String :=
  if strContains ft ("Vec<" ++ core ++ ">") then
    some (String.mk (replaceFirstC ("Vec<" ++ core ++ ">").toList
      ("Vec<Box<" ++ core ++ ">>").toList ft.toList))
  else if ft == core then some ("Box<" ++ core ++ ">")
  else none

def lookupEdit : List ((String × String) × String) → String × String → Option String
  | [], _ => none
  | (k, v) :: rest, q =>
    if k.1 == q.1 && k.2 == q.2 then some v else lookupEdit rest q

/-- One parsed field of one struct: decide it, record the edit when the
decision fired and a rewrite applies, and thread the depth memo. -/
def editFieldStep (cfg : BoxConfig) (structs : StructsMap) (counts : Counts) (sn : String)
    (acc2 : List ((String × String) × String) × Memo) (fld : String × String × String) :
    List ((String × String) × String) × Memo :=
  let r := shouldBoxField cfg structs counts acc2.2 sn fld.2.1 fld.2.2
  if r.1 then
    match boxFieldEdit fld.2.1 fld.2.2 with
    | some nft => (acc2.1 ++ [((sn, fld.1), nft)], r.2)
    | none => (acc2.1, r.2)
  else (acc2.1, r.2)

def editStructStep (cfg : BoxConfig) (structs : StructsMap) (counts : Counts)
    (acc : List ((String × String) × String) × Memo)
    (se : String × List (String × String × String)) :
    List ((String × String) × String) × Memo :=
  se.2.foldl (editFieldStep cfg structs counts se.1) acc

/-- `apply_boxing` on one file: re-parse the file (updating the accumulated
field counts), decide each parsed field in order (threading the depth memo),
and rewrite each changed `(struct, field)` in the file text.
Returns `(rewritten file, counts, memo, number of reported changes)`. -/
def applyBoxingFile (cfg : BoxConfig) (counts : Counts) (memo : Memo) (f : FileT) :
    FileT × Counts × Memo × Nat :=
  let counts' := countsUpdate counts f
  let structs := structsOfFile f
  let step := structs.foldl (editStructStep cfg structs counts') ([], memo)
  let newFile := f.map (fun st => (st.1, st.2.map (fun fl =>
    match lookupEdit step.1 (st.1, fl.1) with
    | some nft => (fl.1, nft)
    | none => fl)))
  (newFile, counts', step.2, step.1.length)

/-- `main`'s loop over the files of the directory (in the order given),
with the analyzer state (`struct_fields_count`, `nesting_depth`) carried
across files because the same `StructAnalyzer` instance is reused. -/
def passFiles (cfg : BoxConfig) : Counts × Memo → List FileT → (Counts × Memo) × List (FileT × Nat)
  | st, [] => (st, [])
  | st, f :: rest =>
    let r := applyBoxingFile cfg st.1 st.2 f
    let rec2 := passFiles cfg (r.2.1, r.2.2.1) rest
    (rec2.1, (r.1, r.2.2.2) :: rec2.2)

/-- One invocation of the indirection tool on a corpus (fresh analyzer). -/
def indirectionPass (cfg : BoxConfig) (c : List FileT) : (Counts × Memo) × List (FileT × Nat) :=
  passFiles cfg ([], []) c

def passOutputFiles (r : (Counts × Memo) × List (FileT × Nat)) : List FileT :=
  r.2.map Prod.fst

def passTotalChanges (r : (Counts × Memo) × List (FileT × Nat)) : Nat :=
  r.2.foldl (fun a p => a + p.2) 0

/-- The indirection tool's `main`: exit code 1 when the directory is missing
or not a directory, else run the pass and exit 0. -/
def indirectionMain (cfg : BoxConfig) (fs : Option (List FileT)) :
    Nat × Option ((Counts × Memo) × List (FileT × Nat)) :=
  match fs with
  | none => (1, none)
  | some c => (0, some (indirectionPass cfg c))

/-! ### Data model of the consolidation tool (`generate-common.py`)

A scanned corpus is a list of `(filename, defined type names in file order)`;
the definitions' bodies are not needed for the claims below. -/

abbrev Corpus2 := List (String × List String)

/-- `scan_rust_files`'s `type_locations`: type name -> list of filenames
hosting a definition, in scan order (`defaultdict(list)` append). -/
def typeLocations (c : Corpus2) : List (String × List String) :=
  c.foldl (fun acc f => f.2.foldl (fun a n => appendKV a n f.1) acc) []

/-- `scan_rust_files`'s `lowercase_matches`: initialized to `[]` and never
appended to anywhere in the function, so every scan returns the empty list. -/
def scanLowercaseMatches (_c : Corpus2) : List String := []

def versionSuffixes : List String :=
  ["V01", "V02", "V03", "V04", "V05", "V06", "V07", "V08", "V09", "V10"]

def upperMap : List (Char × Char) :=
  [('a', 'A'), ('b', 'B'), ('c', 'C'), ('d', 'D'), ('e', 'E'), ('f', 'F'),
   ('g', 'G'), ('h', 'H'), ('i', 'I'), ('j', 'J'), ('k', 'K'), ('l', 'L'),
   ('m', 'M'), ('n', 'N'), ('o', 'O'), ('p', 'P'), ('q', 'Q'), ('r', 'R'),
   ('s', 'S'), ('t', 'T'), ('u', 'U'), ('v', 'V'), ('w', 'W'), ('x', 'X'),
   ('y', 'Y'), ('z', 'Z')]

/-- ASCII `str.upper()`. -/
def charUpper (c : Char) : Char := (upperMap.lookup c).getD c

def strUpper (s : String) : String := String.mk (s.toList.map charUpper)

def strEndsWith (s suffix : String) : Bool :=
  isPrefixC suffix.toList.reverse s.toList.reverse

/-- The condition pair in `print_summary`'s root-struct loop: the outer
disjunction (version suffix / DOCUMENT / MESSAGE marker / single occurrence)
and the inner `len == 1 and locations[0].filename == filename` check. -/
def isRootHit (tn : String) (locs : List String) (fname : String) : Bool :=
  (versionSuffixes.any (fun s => strEndsWith tn s)
      || strContains (strUpper tn) "DOCUMENT"
      || strContains (strUpper tn) "MESSAGE"
      || locs.length == 1)
    && (locs.length == 1 && locs.head? == some fname)

/-- `print_summary`'s `root_structs` set: iterate all scanned filenames and
all type names, adding a name when `isRootHit` fires. -/
def rootStructs (tl : List (String × List String)) : List String :=
  (dedupStr (tl.foldl (fun acc e => acc ++ e.2) [])).foldl (fun acc fname =>
    if strEndsWith fname ".rs" then
      tl.foldl (fun acc2 e => if isRootHit e.1 e.2 fname then insertUnique acc2 e.1 else acc2) acc
    else acc) []

/-- `print_summary`'s `frequent_types` (the relocation candidates); the
`typecount` argument is received and never read, exactly as in the source. -/
def printSummaryFrequent (tl : List (String × List String)) (_typecount : Int) :
    List (String × List String) :=
  tl.filter (fun e => !((rootStructs tl).contains e.1) && decide (1 < e.2.length))

def insertSortedStr (x : String) : List String → List String
  | [] => [x]
  | y :: rest => if x ≤ y then x :: y :: rest else y :: insertSortedStr x rest

def sortStr (l : List String) : List String := l.foldr insertSortedStr []

/-- `generate_mod_file`: keep the existing shared-module types, then append
the relocated names sorted by name, skipping those already present. -/
def newModNames (existing : List String) (freq : List (String × List String)) : List String :=
  existing ++ (sortStr (freq.map Prod.fst)).filter (fun n => !(existing.contains n))

/-- `remove_duplicates_from_files`: every definition span of every relocated
type is deleted from the files; lowercase definitions are untouched (the
lowercase list the docstring promises is never populated). -/
def removeDup (freq : List (String × List String)) (c : Corpus2) : Corpus2 :=
  c.map (fun f => (f.1, f.2.filter (fun n => !(keyMem freq n))))

structure ConsResult where
  exitCode : Nat
  corpus : Corpus2
  modNames : List String
  deriving Repr, DecidableEq

/-- The consolidation tool's `main`. A missing or invalid directory is not an
error there: `scan_rust_files` prints a diagnostic and returns empty results,
`print_summary` finds nothing frequent, and `main` falls through to `return 0`.
`typecount` is parsed with `int(...)` and handed to `print_summary`, which
ignores it. `existingMod` is the set of type names already in `mod.rs`. -/
def consolidationMain (fs : Option Corpus2) (typecount : Int) (existingMod : List String) :
    ConsResult :=
  match fs with
  | none => { exitCode := 0, corpus := [], modNames := existingMod }
  | some c =>
    let tl := typeLocations c
    let lower := scanLowercaseMatches c
    let freq := printSummaryFrequent tl typecount
    if !(freq.isEmpty) || !(lower.isEmpty) then
      { exitCode := 0
        corpus := removeDup freq c
        modNames := if freq.isEmpty then existingMod else newModNames existingMod freq }
    else { exitCode := 0, corpus := c, modNames := existingMod }

/-! ### The definition extractor's body capture (claim C7)

`pub struct (\w+)\s*\{([^}]*)\}`: the captured body is everything up to the
FIRST closing brace. -/

/-- The body capture the source's regex performs on the text after the
opening brace: stop at the first closing brace (fails when there is none). -/
def bodyCapture (s : List Char) : Option (List Char) :=
  if s.contains '}' then some (s.takeWhile (fun c => !(c == '}'))) else none

/-- Modelled from the spec: the body-capture rule required by §4.1, which
balances nested braces, extending the captured span to the closing brace
matching the definition's opening brace (depth starts at 1). -/
def specBalancedBodyCapture : List Char → Nat → Option (List Char)
  | [], _ => none
  | c :: rest, d =>
    if c == '}' then
      if d == 1 then some [] else (specBalancedBodyCapture rest (d - 1)).map (fun l => c :: l)
    else if c == '{' then (specBalancedBodyCapture rest (d + 1)).map (fun l => c :: l)
    else (specBalancedBodyCapture rest d).map (fun l => c :: l)

/-! ### Reference definitions and auxiliary forms for the depth analysis -/

/-- The inner step of `calcNestingDepth`'s field loop, as a named function
(definitionally equal to the inline lambda). -/
def depthFoldStep (structs : StructsMap) (f : Nat) (path : List String)
    (p : Nat × Memo) (fld : String × String × String) : Nat × Memo :=
  if isPrimitive fld.2.2 then p
  else if keyMem structs fld.2.2 then
    let q := calcNestingDepth structs f path p.2 fld.2.2
    (Nat.max p.1 (q.1 + 1), q.2)
  else p

/-- The specification's nesting-depth recurrence (claim C2), path-free:
`depth(T) = 1 + max(depth(C))` over `T`'s non-primitive children present in
the map, `0` if there are none, an unresolved child contributing nothing. -/
def specNestingDepth (structs : StructsMap) : Nat → String → Nat
  | 0, _ => 0
  | f + 1, n =>
    match lookupKV structs n with
    | none => 0
    | some fields => fields.foldl (fun a fld =>
        if isPrimitive fld.2.2 then a
        else if keyMem structs fld.2.2 then Nat.max a (specNestingDepth structs f fld.2.2 + 1)
        else a) 0

def specFoldStep (structs : StructsMap) (f : Nat) (a : Nat)
    (fld : String × String × String) : Nat :=
  if isPrimitive fld.2.2 then a
  else if keyMem structs fld.2.2 then Nat.max a (specNestingDepth structs f fld.2.2 + 1)
  else a

/-- The specification's nesting-depth definition with its path clause (claim
C2): a child already on the current traversal path contributes 0. -/
def specDepthPath (structs : StructsMap) : Nat → List String → String → Nat
  | 0, _, _ => 0
  | f + 1, path, n =>
    if n ∈ path then 0
    else
      match lookupKV structs n with
      | none => 0
      | some fields => fields.foldl (fun a fld =>
          if isPrimitive fld.2.2 then a
          else if keyMem structs fld.2.2 then
            Nat.max a (specDepthPath structs f (n :: path) fld.2.2 + 1)
          else a) 0

/-- Query a sequence of depths against one analyzer instance, as
`should_box_field` does across the fields of a run, keeping the memo. -/
def runQueries (structs : StructsMap) (qs : List String) : Memo :=
  qs.foldl (fun m q => (calcNestingDepth structs (structsBound structs) [] m q).2) []

def keysOf {β : Type} (l : List (String × β)) : List String := l.map Prod.fst

def unvisitedCount (structs : StructsMap) (v : List String) : Nat :=
  ((keysOf structs).filter (fun k => !(v.contains k))).length

/-- All memo entries agree with the specification recurrence. -/
def memoOK (structs : StructsMap) (rk : String → Nat) (m : Memo) : Prop :=
  ∀ k d, lookupKV m k = some d → d = specNestingDepth structs (rk k + 1) k

/-- The visited set only holds ancestors of strictly larger rank. -/
def visOK (structs : StructsMap) (rk : String → Nat) (v : List String) (n : String) : Prop :=
  n ∉ v ∧ ∀ x ∈ v, keyMem structs x = true → rk n < rk x

/-- `rk` witnesses acyclicity: every resolved non-primitive child reference
strictly decreases it. -/
def RankOK (structs : StructsMap) (rk : String → Nat) : Prop :=
  ∀ e ∈ structs, ∀ fld ∈ e.2, isPrimitive fld.2.2 = false →
    keyMem structs fld.2.2 = true → rk fld.2.2 < rk e.1

/-! ### The five strategies of `should_box_field` as standalone predicates -/

def stratAlwaysBox (cfg : BoxConfig) (core : String) : Bool :=
  cfg.always_box_types.contains core

/-- Strategy 2 and 3 content (element patterns and parent patterns), both
gated in the source by the single `use_pattern_matching` flag. -/
def stratVecPattern (cfg : BoxConfig) (sn ft core : String) : Bool :=
  strContains ft "Vec<"
    && (cfg.box_in_vec_patterns.any (fun p => p core)
        || cfg.box_vec_if_parent_matches.any (fun p => p sn))

def stratSize (cfg : BoxConfig) (counts : Counts) (ft core : String) : Bool :=
  (match lookupKV counts core with
   | some cnt => decide (cfg.min_fields_to_box ≤ cnt)
   | none => false)
    && strContains ft "Vec<"

def stratNesting (cfg : BoxConfig) (structs : StructsMap) (memo : Memo) (ft core : String) :
    Bool :=
  strContains ft "Vec<" && keyMem structs core
    && decide (cfg.max_nesting_depth
        ≤ (calcNestingDepth structs (structsBound structs) [] memo core).1)

/-! ### Concrete corpora used by the counterexamples and witnesses -/

/-- Nesting-only configuration with depth threshold 2
(`--no-patterns --no-size --max-depth 2`). -/
def cfgNestOnly : BoxConfig := ⟨[], [], [], 10, 2, false, false, true⟩

/-- Size-only configuration with field threshold 1
(`--no-patterns --no-nesting --min-fields 1`). -/
def cfgSizeOnly : BoxConfig := ⟨[], [], [], 1, 4, true, false, false⟩

/-- Allow-list-only configuration over the three strategy flags. -/
def cfgAlwaysT (p s n : Bool) : BoxConfig := ⟨["T"], [], [], 10, 4, s, p, n⟩

/-- One file with two `Vec` parents over a two-type reference cycle. -/
def file6 : FileT :=
  [("P1", [("a", "Vec<A>")]), ("P2", [("b", "Vec<B>")]),
   ("A", [("x", "B")]), ("B", [("y", "A")])]

def fileBig : FileT := [("Big", [("a", "String")])]

def fileS : FileT := [("S", [("x", "Vec<Big>")])]

/-- Two mutually recursive structs. -/
def cycFile : FileT := [("A", [("x", "B")]), ("B", [("y", "A")])]

/-- Acyclic chain A → B → C with C primitive-only. -/
def chainFile : FileT :=
  [("A", [("f", "B")]), ("B", [("g", "C")]), ("C", [("h", "String")])]

def chainRank (n : String) : Nat := if n == "A" then 2 else if n == "B" then 1 else 0

/-- Self-referential struct with a sequence-of-itself field. -/
def selfRefFile : FileT := [("A", [("s", "Vec<A>")])]

def permsABC : List (List String) :=
  [["A", "B", "C"], ["A", "C", "B"], ["B", "A", "C"],
   ["B", "C", "A"], ["C", "A", "B"], ["C", "B", "A"]]

/-- Corpus with a version-suffixed type duplicated across two files. -/
def c1Corpus : Corpus2 := [("a.rs", ["FooV01"]), ("b.rs", ["FooV01"])]

/-- The spec §8 end-to-end shape: `Party` defined in three files, plus a
lowercase helper and a single-file versioned type. -/
def partyCorpus : Corpus2 :=
  [("a.rs", ["Party", "foo"]), ("b.rs", ["Party"]), ("c.rs", ["Party", "BarV02"])]

/-- A struct body (text after the opening brace) containing a nested closing
brace before the true end of the body. -/
def c7Body : List Char := " pub a: T\x7bU\x7d, pub b: X, \x7d".toList

/-! ### Helper lemmas -/

theorem containsStr_iff (v : List String) (k : String) : v.contains k = true ↔ k ∈ v := by
  induction v with
  | nil => simp
  | cons a tl ih => simp [List.contains_cons, ih, beq_iff_eq, List.mem_cons]

theorem containsStr_false (v : List String) (k : String) (h : ¬ k ∈ v) :
    v.contains k = false := by
  cases hcv : v.contains k
  · rfl
  · exact absurd ((containsStr_iff v k).mp hcv) h

theorem lookupKV_insertKV {β : Type} (m : List (String × β)) (k k' : String) (v : β) :
    lookupKV (insertKV m k v) k' = if k == k' then some v else lookupKV m k' := by
  induction m with
  | nil => simp [insertKV, lookupKV]
  | cons e rest ih =>
    obtain ⟨a, b⟩ := e
    simp only [insertKV, lookupKV]
    by_cases he : a == k
    · have he' : a = k := by simpa using he
      subst he'
      cases hk : (a == k') <;> simp [lookupKV, hk]
    · simp only [he, Bool.false_eq_true, if_false, lookupKV]
      by_cases he2 : a == k'
      · have he2' : a = k' := by simpa using he2
        have hne : (k == k') = false := by
          apply beq_eq_false_iff_ne.mpr
          intro h
          exact he (by simp [he2', h])
        simp [he2, hne]
      · simp [he2, ih]

theorem lookupKV_mem {β : Type} (m : List (String × β)) (k : String) (v : β)
    (h : lookupKV m k = some v) : (k, v) ∈ m := by
  induction m with
  | nil => simp [lookupKV] at h
  | cons e rest ih =>
    obtain ⟨a, b⟩ := e
    by_cases he : a == k
    · have he' : a = k := by simpa using he
      subst he'
      simp only [lookupKV, beq_self_eq_true, if_true, Option.some.injEq] at h
      subst h
      exact List.mem_cons_self _ _
    · simp only [lookupKV, he, Bool.false_eq_true, if_false] at h
      exact List.mem_cons_of_mem _ (ih h)

theorem keyMem_iff {β : Type} (m : List (String × β)) (k : String) :
    keyMem m k = true ↔ k ∈ keysOf m := by
  induction m with
  | nil => simp [keyMem, keysOf]
  | cons e rest ih =>
    simp only [keyMem, List.any_cons, Bool.or_eq_true, beq_iff_eq, keysOf, List.map_cons,
      List.mem_cons] at ih ⊢
    rw [ih]
    exact or_congr_left eq_comm

theorem keyMem_of_lookup {β : Type} (m : List (String × β)) (k : String) (v : β)
    (h : lookupKV m k = some v) : keyMem m k = true := by
  rw [keyMem_iff]
  simp only [keysOf]
  exact List.mem_map.mpr ⟨(k, v), lookupKV_mem m k v h, rfl⟩

theorem foldl_ext_mem {α β : Type} (f g : α → β → α) (l : List β)
    (h : ∀ a b, b ∈ l → f a b = g a b) : ∀ init, l.foldl f init = l.foldl g init := by
  induction l with
  | nil => intro init; rfl
  | cons x xs ih =>
    intro init
    simp only [List.foldl_cons]
    rw [h init x (by simp)]
    exact ih (fun a b hb => h a b (by simp [hb])) _

theorem foldl_preserve {α β : Type} {P : α → Prop} (step : α → β → α)
    (h : ∀ a b, P a → P (step a b)) : ∀ (l : List β) (a : α), P a → P (l.foldl step a) := by
  intro l
  induction l with
  | nil => intro a ha; exact ha
  | cons x xs ih => intro a ha; exact ih _ (h a x ha)

theorem filter_length_mono {α : Type} (l : List α) (p q : α → Bool)
    (h : ∀ a, p a = true → q a = true) : (l.filter p).length ≤ (l.filter q).length := by
  induction l with
  | nil => simp
  | cons x xs ih =>
    by_cases hp : p x
    · simp [List.filter_cons, hp, h x hp, Nat.succ_le_succ ih]
    · by_cases hq : q x
      · simp only [List.filter_cons, hp, hq]
        simp only [Bool.false_eq_true, if_false, if_true, List.length_cons]
        exact Nat.le_succ_of_le ih
      · simp [List.filter_cons, hp, hq, ih]

theorem filter_cons_contains_lt (l : List String) (n : String) (v : List String)
    (hn : n ∈ l) (hv : ¬ n ∈ v) :
    (l.filter (fun k => !((n :: v).contains k))).length
      < (l.filter (fun k => !(v.contains k))).length := by
  induction l with
  | nil => simp at hn
  | cons a tl ih =>
    by_cases ha : a = n
    · subst ha
      have h1 : ((a :: v).contains a) = true := (containsStr_iff _ _).mpr (by simp)
      have h2 : (v.contains a) = false := containsStr_false v a hv
      simp only [List.filter_cons, h1, h2, Bool.not_true, Bool.not_false,
        Bool.false_eq_true, if_false, if_true, List.length_cons]
      have hmono := filter_length_mono tl (fun k => !((a :: v).contains k))
        (fun k => !(v.contains k)) (by
          intro b hb
          show (!(v.contains b)) = true
          replace hb : (!((a :: v).contains b)) = true := hb
          cases hcb : (a :: v).contains b
          · have hnb : ¬ b ∈ (a :: v) := by
              intro hm
              have := (containsStr_iff _ _).mpr hm
              rw [hcb] at this
              exact Bool.noConfusion this
            have hbv : ¬ b ∈ v := fun hm => hnb (List.mem_cons_of_mem a hm)
            rw [containsStr_false v b hbv]
            rfl
          · rw [hcb] at hb
            exact Bool.noConfusion hb)
      omega
    · have hn' : n ∈ tl := by
        rcases List.mem_cons.mp hn with h | h
        · exact absurd h.symm ha
        · exact h
      have hcc : ((n :: v).contains a) = (v.contains a) := by
        cases hva : v.contains a
        · apply containsStr_false
          intro hmem
          rcases List.mem_cons.mp hmem with h | h
          · exact ha h
          · have := (containsStr_iff v a).mpr h
            rw [hva] at this
            exact Bool.noConfusion this
        · exact (containsStr_iff _ _).mpr
            (List.mem_cons_of_mem n ((containsStr_iff v a).mp hva))
      by_cases hva : v.contains a
      · simp only [List.filter_cons, hcc, hva, Bool.not_true, Bool.false_eq_true, if_false]
        exact ih hn'
      · have hva' : v.contains a = false := by
          cases h : v.contains a
          · rfl
          · exact absurd h hva
        simp only [List.filter_cons, hcc, hva', Bool.not_false, if_true, List.length_cons]
        exact Nat.succ_lt_succ (ih hn')

theorem unvisitedCount_nil (structs : StructsMap) :
    unvisitedCount structs [] = structs.length := by
  simp [unvisitedCount, keysOf]

theorem unvisitedCount_cons_lt (structs : StructsMap) (n : String) (v : List String)
    (hk : keyMem structs n = true) (hv : ¬ n ∈ v) :
    unvisitedCount structs (n :: v) < unvisitedCount structs v := by
  exact filter_cons_contains_lt (keysOf structs) n v ((keyMem_iff structs n).mp hk) hv

theorem calc_unfold (structs : StructsMap) (f : Nat) (v : List String) (m : Memo) (n : String) :
    calcNestingDepth structs (f + 1) v m n =
      match lookupKV m n with
      | some d => (d, m)
      | none =>
        if n ∈ v then (0, m)
        else
          match lookupKV structs n with
          | none => (0, insertKV m n 0)
          | some fields =>
            let r := fields.foldl (depthFoldStep structs f (n :: v)) (0, m)
            (r.1, insertKV r.2 n r.1) := rfl

theorem spec_unfold (structs : StructsMap) (f : Nat) (n : String) :
    specNestingDepth structs (f + 1) n =
      match lookupKV structs n with
      | none => 0
      | some fields => fields.foldl (specFoldStep structs f) 0 := rfl

theorem calc_fuel_step (structs : StructsMap) :
    ∀ (fuel : Nat) (v : List String) (m : Memo) (n : String),
      unvisitedCount structs v < fuel →
      calcNestingDepth structs (fuel + 1) v m n = calcNestingDepth structs fuel v m n := by
  intro fuel
  induction fuel with
  | zero => intro v m n h; exact absurd h (Nat.not_lt_zero _)
  | succ f ih =>
    intro v m n h
    rw [calc_unfold, calc_unfold]
    cases hm : lookupKV m n with
    | some d => rfl
    | none =>
      simp only []
      by_cases hv : n ∈ v
      · simp [hv]
      · simp only [hv, if_false]
        cases hs : lookupKV structs n with
        | none => rfl
        | some fields =>
          simp only []
          have hkey : keyMem structs n = true := keyMem_of_lookup structs n fields hs
          have huc : unvisitedCount structs (n :: v) < f := by
            have h1 := unvisitedCount_cons_lt structs n v hkey hv
            omega
          have hfold : fields.foldl (depthFoldStep structs (f + 1) (n :: v)) (0, m)
              = fields.foldl (depthFoldStep structs f (n :: v)) (0, m) := by
            apply foldl_ext_mem
            intro p fld _
            unfold depthFoldStep
            by_cases hp : isPrimitive fld.2.2
            · simp [hp]
            · by_cases hk : keyMem structs fld.2.2
              · simp only [hp, hk, Bool.false_eq_true, if_false, if_true]
                rw [ih (n :: v) p.2 fld.2.2 huc]
              · simp [hp, hk]
          rw [hfold]

theorem calc_fuel_stable (structs : StructsMap) (f g : Nat) (v : List String) (m : Memo)
    (n : String) (hf : unvisitedCount structs v < f) (hfg : f ≤ g) :
    calcNestingDepth structs g v m n = calcNestingDepth structs f v m n := by
  induction g with
  | zero =>
    have : f = 0 := Nat.le_zero.mp hfg
    rw [this]
  | succ g' ih =>
    rcases Nat.lt_or_ge f (g' + 1) with hlt | hge
    · have hle : f ≤ g' := Nat.lt_succ_iff.mp hlt
      rw [calc_fuel_step structs g' v m n (lt_of_lt_of_le hf hle), ih hle]
    · have : f = g' + 1 := Nat.le_antisymm hfg hge
      rw [this]

theorem memoOK_nil (structs : StructsMap) (rk : String → Nat) : memoOK structs rk [] := by
  intro k d h
  simp [lookupKV] at h

theorem memoOK_insert (structs : StructsMap) (rk : String → Nat) (m : Memo) (k : String)
    (d : Nat) (hm : memoOK structs rk m) (hd : d = specNestingDepth structs (rk k + 1) k) :
    memoOK structs rk (insertKV m k d) := by
  intro k' d' h
  rw [lookupKV_insertKV] at h
  by_cases hk : k == k'
  · have hk' : k = k' := by simpa using hk
    simp only [hk, if_true, Option.some.injEq] at h
    subst hk'
    rw [← h, hd]
  · simp only [hk, Bool.false_eq_true, if_false] at h
    exact hm k' d' h

theorem spec_stable (structs : StructsMap) (rk : String → Nat) (H : RankOK structs rk) :
    ∀ (f : Nat) (n : String), rk n < f →
      specNestingDepth structs f n = specNestingDepth structs (rk n + 1) n := by
  intro f
  induction f using Nat.strong_induction_on with
  | _ f ih =>
    intro n hn
    cases f with
    | zero => exact absurd hn (Nat.not_lt_zero _)
    | succ f' =>
      rw [spec_unfold, spec_unfold]
      cases hs : lookupKV structs n with
      | none => rfl
      | some fields =>
        simp only []
        apply foldl_ext_mem
        intro a fld hfld
        unfold specFoldStep
        by_cases hp : isPrimitive fld.2.2
        · simp [hp]
        · have hp' : isPrimitive fld.2.2 = false := by
            cases hpp : isPrimitive fld.2.2
            · rfl
            · exact absurd hpp hp
          by_cases hk : keyMem structs fld.2.2
          · simp only [hp', Bool.false_eq_true, if_false, hk, if_true]
            have hrk : rk fld.2.2 < rk n :=
              H (n, fields) (lookupKV_mem structs n fields hs) fld hfld hp' hk
            have h1 : specNestingDepth structs f' fld.2.2
                = specNestingDepth structs (rk fld.2.2 + 1) fld.2.2 :=
              ih f' (Nat.lt_succ_self f') fld.2.2 (by omega)
            have h2 : specNestingDepth structs (rk n) fld.2.2
                = specNestingDepth structs (rk fld.2.2 + 1) fld.2.2 :=
              ih (rk n) (by omega) fld.2.2 hrk
            rw [h1, h2]
          · have hk' : keyMem structs fld.2.2 = false := by
              cases hkk : keyMem structs fld.2.2
              · rfl
              · exact absurd hkk hk
            simp [hp', hk']

theorem calc_spec (structs : StructsMap) (rk : String → Nat) (H : RankOK structs rk) :
    ∀ (fuel : Nat) (v : List String) (m : Memo) (n : String),
      unvisitedCount structs v < fuel → memoOK structs rk m → visOK structs rk v n →
      (calcNestingDepth structs fuel v m n).1 = specNestingDepth structs (rk n + 1) n
      ∧ memoOK structs rk (calcNestingDepth structs fuel v m n).2 := by
  intro fuel
  induction fuel with
  | zero => intro v m n h _ _; exact absurd h (Nat.not_lt_zero _)
  | succ f ih =>
    intro v m n huc hm hvis
    have hnv : ¬ n ∈ v := hvis.1
    cases hmn : lookupKV m n with
    | some d =>
      have hred : calcNestingDepth structs (f + 1) v m n = (d, m) := by
        rw [calc_unfold, hmn]
      rw [hred]
      exact ⟨hm n d hmn, hm⟩
    | none =>
      cases hs : lookupKV structs n with
      | none =>
        have hzero : specNestingDepth structs (rk n + 1) n = 0 := by
          rw [spec_unfold, hs]
        have hred : calcNestingDepth structs (f + 1) v m n = (0, insertKV m n 0) := by
          rw [calc_unfold, hmn]
          simp only [hnv, if_false, hs]
        rw [hred]
        exact ⟨hzero.symm, memoOK_insert structs rk m n 0 hm hzero.symm⟩
      | some fields =>
        have hkeyn : keyMem structs n = true := keyMem_of_lookup structs n fields hs
        have hucc : unvisitedCount structs (n :: v) < f := by
          have h1 := unvisitedCount_cons_lt structs n v hkeyn hnv
          omega
        have hmemfs : (n, fields) ∈ structs := lookupKV_mem structs n fields hs
        have FL : ∀ (fs : List (String × String × String)),
            (∀ fld, fld ∈ fs → fld ∈ fields) →
            ∀ (acc : Nat) (m' : Memo), memoOK structs rk m' →
              (fs.foldl (depthFoldStep structs f (n :: v)) (acc, m')).1
                  = fs.foldl (specFoldStep structs (rk n)) acc
              ∧ memoOK structs rk (fs.foldl (depthFoldStep structs f (n :: v)) (acc, m')).2 := by
          intro fs
          induction fs with
          | nil => intro _ acc m' hm'; exact ⟨rfl, hm'⟩
          | cons fld tl ihfs =>
            intro hsub acc m' hm'
            have hfldmem : fld ∈ fields := hsub fld (by simp)
            simp only [List.foldl_cons]
            by_cases hp : isPrimitive fld.2.2
            · rw [show depthFoldStep structs f (n :: v) (acc, m') fld = (acc, m') from by
                unfold depthFoldStep; simp [hp]]
              rw [show specFoldStep structs (rk n) acc fld = acc from by
                unfold specFoldStep; simp [hp]]
              exact ihfs (fun g hg => hsub g (List.mem_cons_of_mem _ hg)) acc m' hm'
            · have hp' : isPrimitive fld.2.2 = false := by
                cases hpp : isPrimitive fld.2.2
                · rfl
                · exact absurd hpp hp
              by_cases hk : keyMem structs fld.2.2
              · have hrk : rk fld.2.2 < rk n := H (n, fields) hmemfs fld hfldmem hp' hk
                have hvisc : visOK structs rk (n :: v) fld.2.2 := by
                  constructor
                  · intro hmem
                    rcases List.mem_cons.mp hmem with hh | hh
                    · rw [hh] at hrk
                      exact absurd hrk (lt_irrefl _)
                    · have := hvis.2 fld.2.2 hh hk
                      omega
                  · intro x hx hkx
                    rcases List.mem_cons.mp hx with hh | hh
                    · rw [hh]
                      exact hrk
                    · exact lt_trans hrk (hvis.2 x hh hkx)
                have hchild := ih (n :: v) m' fld.2.2 hucc hm' hvisc
                rw [show depthFoldStep structs f (n :: v) (acc, m') fld
                    = (Nat.max acc ((calcNestingDepth structs f (n :: v) m' fld.2.2).1 + 1),
                       (calcNestingDepth structs f (n :: v) m' fld.2.2).2) from by
                  unfold depthFoldStep; simp [hp', hk]]
                rw [show specFoldStep structs (rk n) acc fld
                    = Nat.max acc (specNestingDepth structs (rk n) fld.2.2 + 1) from by
                  unfold specFoldStep; simp [hp', hk]]
                have hval : (calcNestingDepth structs f (n :: v) m' fld.2.2).1
                    = specNestingDepth structs (rk n) fld.2.2 := by
                  rw [hchild.1, spec_stable structs rk H (rk n) fld.2.2 hrk]
                rw [hval]
                exact ihfs (fun g hg => hsub g (List.mem_cons_of_mem _ hg)) _ _ hchild.2
              · have hk' : keyMem structs fld.2.2 = false := by
                  cases hkk : keyMem structs fld.2.2
                  · rfl
                  · exact absurd hkk hk
                rw [show depthFoldStep structs f (n :: v) (acc, m') fld = (acc, m') from by
                  unfold depthFoldStep; simp [hp', hk']]
                rw [show specFoldStep structs (rk n) acc fld = acc from by
                  unfold specFoldStep; simp [hp', hk']]
                exact ihfs (fun g hg => hsub g (List.mem_cons_of_mem _ hg)) acc m' hm'
        have hmain := FL fields (fun fld h => h) 0 m hm
        have hspec : specNestingDepth structs (rk n + 1) n
            = fields.foldl (specFoldStep structs (rk n)) 0 := by
          rw [spec_unfold, hs]
        have hred : calcNestingDepth structs (f + 1) v m n
            = ((fields.foldl (depthFoldStep structs f (n :: v)) (0, m)).1,
               insertKV (fields.foldl (depthFoldStep structs f (n :: v)) (0, m)).2 n
                 (fields.foldl (depthFoldStep structs f (n :: v)) (0, m)).1) := by
          rw [calc_unfold, hmn]
          simp only [hnv, if_false, hs]
        rw [hred]
        refine ⟨by rw [hspec]; exact hmain.1, ?_⟩
        exact memoOK_insert structs rk _ n _ hmain.2 (by rw [hspec]; exact hmain.1)

theorem visOK_nil (structs : StructsMap) (rk : String → Nat) (n : String) :
    visOK structs rk [] n := by
  constructor
  · simp
  · intro x hx
    simp at hx

theorem uc_lt_bound (structs : StructsMap) :
    unvisitedCount structs [] < structsBound structs := by
  rw [unvisitedCount_nil]
  exact Nat.lt_succ_self _

theorem runQueries_memoOK (structs : StructsMap) (rk : String → Nat) (H : RankOK structs rk)
    (qs : List String) : memoOK structs rk (runQueries structs qs) := by
  unfold runQueries
  exact foldl_preserve _ (fun m q hm =>
    (calc_spec structs rk H (structsBound structs) [] m q (uc_lt_bound structs) hm
      (visOK_nil structs rk q)).2) qs [] (memoOK_nil structs rk)

theorem foldl_preserve_mem {α β : Type} {P : α → Prop} (l : List β) (step : α → β → α)
    (h : ∀ a b, b ∈ l → P a → P (step a b)) : ∀ a, P a → P (l.foldl step a) := by
  induction l with
  | nil => intro a ha; exact ha
  | cons x xs ih =>
    intro a ha
    exact ih (fun a' b hb ha' => h a' b (List.mem_cons_of_mem _ hb) ha') _
      (h a x (List.mem_cons_self _ _) ha)

theorem map_id_of_eq {α : Type} (f : α → α) (l : List α) (h : ∀ x, f x = x) : l.map f = l := by
  induction l with
  | nil => rfl
  | cons x xs ih => simp [h x, ih]

theorem mem_insertKV {β : Type} (l : List (String × β)) (k : String) (v : β) :
    ∀ e ∈ insertKV l k v, e ∈ l ∨ e = (k, v) := by
  induction l with
  | nil =>
    intro e he
    simp [insertKV] at he
    exact Or.inr he
  | cons x rest ih =>
    intro e he
    by_cases hx : x.1 == k
    · have hx' : x.1 = k := by simpa using hx
      simp only [insertKV, hx, if_true] at he
      rcases List.mem_cons.mp he with h1 | h1
      · exact Or.inr (by rw [h1, hx'])
      · exact Or.inl (List.mem_cons_of_mem _ h1)
    · simp only [insertKV, hx, Bool.false_eq_true, if_false] at he
      rcases List.mem_cons.mp he with h1 | h1
      · exact Or.inl (by rw [h1]; exact List.mem_cons_self _ _)
      · rcases ih e h1 with h2 | h2
        · exact Or.inl (List.mem_cons_of_mem _ h2)
        · exact Or.inr h2

theorem parseFieldsP_mem (flds : List FieldT) :
    ∀ e ∈ parseFieldsP flds, ∃ fl, fl ∈ flds ∧ e = (fl.1, fl.2, extractCore fl.2) := by
  unfold parseFieldsP
  apply foldl_preserve_mem flds
    (P := fun acc => ∀ e ∈ acc, ∃ fl, fl ∈ flds ∧ e = (fl.1, fl.2, extractCore fl.2))
  · intro acc fl hfl hacc e he
    rcases mem_insertKV acc fl.1 (fl.2, extractCore fl.2) e he with h1 | h1
    · exact hacc e h1
    · exact ⟨fl, hfl, h1⟩
  · intro e he
    simp at he

theorem structsOfFile_mem (f : FileT) :
    ∀ se ∈ structsOfFile f, ∃ st, st ∈ f ∧ se = (st.1, parseFieldsP st.2) := by
  unfold structsOfFile
  apply foldl_preserve_mem f
    (P := fun acc => ∀ se ∈ acc, ∃ st, st ∈ f ∧ se = (st.1, parseFieldsP st.2))
  · intro acc st hst hacc se hse
    rcases mem_insertKV acc st.1 (parseFieldsP st.2) se hse with h1 | h1
    · exact hacc se h1
    · exact ⟨st, hst, h1⟩
  · intro se hse
    simp at hse

/-- Any field whose declared type already contains the `Box<` wrapper is
rejected by `should_box_field` with the memo untouched. -/
theorem shouldBox_boxed (cfg : BoxConfig) (structs : StructsMap) (counts : Counts)
    (memo : Memo) (sn ft core : String) (h : strContains ft "Box<" = true) :
    shouldBoxField cfg structs counts memo sn ft core = (false, memo) := by
  unfold shouldBoxField
  by_cases hp : isPrimitive core
  · simp [hp]
  · simp [hp, h]

theorem keysOf_appendKV (l : List (String × List String)) (k v : String) :
    keysOf (appendKV l k v) = if keyMem l k then keysOf l else keysOf l ++ [k] := by
  induction l with
  | nil => simp [appendKV, keysOf, keyMem]
  | cons e rest ih =>
    obtain ⟨a, vs⟩ := e
    by_cases ha : a == k
    · simp [appendKV, ha, keysOf, keyMem]
    · simp only [appendKV, ha, Bool.false_eq_true, if_false, keysOf, List.map_cons, keyMem,
        List.any_cons, Bool.or_eq_true]
      simp only [keysOf, keyMem] at ih
      by_cases hr : rest.any (fun e => e.1 == k)
      · simp only [ha, hr, Bool.false_eq_true, false_or, if_true] at ih ⊢
        rw [ih]
      · simp only [ha, hr, Bool.false_eq_true, false_or, if_false] at ih ⊢
        rw [ih]
        simp

theorem keysOf_appendKV_nodup (l : List (String × List String)) (k v : String)
    (h : (keysOf l).Nodup) : (keysOf (appendKV l k v)).Nodup := by
  rw [keysOf_appendKV]
  by_cases hk : keyMem l k
  · simp [hk, h]
  · have hk2 : keyMem l k = false := by
      cases hkk : keyMem l k
      · rfl
      · exact absurd hkk hk
    have hk' : ¬ k ∈ keysOf l := fun hm => by
      rw [(keyMem_iff l k).mpr hm] at hk2
      exact Bool.noConfusion hk2
    simp [hk2, List.nodup_append, h, hk']

theorem typeLocations_nodup (c : Corpus2) : (keysOf (typeLocations c)).Nodup := by
  unfold typeLocations
  exact foldl_preserve _ (fun acc f hacc =>
    foldl_preserve _ (fun a n ha => keysOf_appendKV_nodup a n f.1 ha) f.2 acc hacc)
    c [] (by simp [keysOf])

theorem nodup_keys_eq {β : Type} (tl : List (String × β)) (h : (keysOf tl).Nodup)
    {k : String} {a b : β} (ha : (k, a) ∈ tl) (hb : (k, b) ∈ tl) : a = b := by
  induction tl with
  | nil => simp at ha
  | cons e rest ih =>
    simp only [keysOf, List.map_cons, List.nodup_cons] at h
    rcases List.mem_cons.mp ha with h1 | h1 <;> rcases List.mem_cons.mp hb with h2 | h2
    · have h3 := h1.trans h2.symm
      exact (Prod.ext_iff.mp h3).2
    · exfalso
      apply h.1
      rw [← h1]
      exact List.mem_map.mpr ⟨(k, b), h2, rfl⟩
    · exfalso
      apply h.1
      rw [← h2]
      exact List.mem_map.mpr ⟨(k, a), h1, rfl⟩
    · exact ih h.2 h1 h2

theorem mem_insertUnique (l : List String) (k x : String) (h : x ∈ insertUnique l k) :
    x ∈ l ∨ x = k := by
  unfold insertUnique at h
  by_cases hc : l.contains k
  · simp only [hc, if_true] at h
    exact Or.inl h
  · simp only [hc, Bool.false_eq_true, if_false] at h
    rcases List.mem_append.mp h with h1 | h1
    · exact Or.inl h1
    · exact Or.inr (by simpa using h1)

theorem mem_rootStructs_inner (tl : List (String × List String)) (fname : String) :
    ∀ (acc : List String) (x : String),
      x ∈ tl.foldl (fun acc2 e => if isRootHit e.1 e.2 fname then insertUnique acc2 e.1 else acc2)
        acc →
      x ∈ acc ∨ ∃ e, e ∈ tl ∧ e.1 = x ∧ isRootHit e.1 e.2 fname = true := by
  induction tl with
  | nil => intro acc x h; exact Or.inl h
  | cons e rest ih =>
    intro acc x h
    simp only [List.foldl_cons] at h
    by_cases hr : isRootHit e.1 e.2 fname
    · simp only [hr, if_true] at h
      rcases ih _ x h with h1 | ⟨e', he', hx, hhit⟩
      · rcases mem_insertUnique acc e.1 x h1 with h2 | h2
        · exact Or.inl h2
        · exact Or.inr ⟨e, List.mem_cons_self _ _, h2.symm, hr⟩
      · exact Or.inr ⟨e', List.mem_cons_of_mem _ he', hx, hhit⟩
    · have hr2 : isRootHit e.1 e.2 fname = false := by
        cases hrr : isRootHit e.1 e.2 fname
        · rfl
        · exact absurd hrr hr
      simp only [hr2, Bool.false_eq_true, if_false] at h
      rcases ih _ x h with h1 | ⟨e', he', hx, hhit⟩
      · exact Or.inl h1
      · exact Or.inr ⟨e', List.mem_cons_of_mem _ he', hx, hhit⟩

theorem mem_rootStructs (tl : List (String × List String)) (x : String)
    (h : x ∈ rootStructs tl) :
    ∃ e, e ∈ tl ∧ e.1 = x ∧ e.2.length = 1 := by
  unfold rootStructs at h
  have houter : ∀ (files : List String) (acc : List String),
      x ∈ files.foldl (fun acc fname =>
        if strEndsWith fname ".rs" then
          tl.foldl (fun acc2 e => if isRootHit e.1 e.2 fname then insertUnique acc2 e.1 else acc2)
            acc
        else acc) acc →
      x ∈ acc ∨ ∃ e fname, e ∈ tl ∧ e.1 = x ∧ isRootHit e.1 e.2 fname = true := by
    intro files
    induction files with
    | nil => intro acc hx; exact Or.inl hx
    | cons fn fns ihf =>
      intro acc hx
      simp only [List.foldl_cons] at hx
      by_cases hrs : strEndsWith fn ".rs"
      · simp only [hrs, if_true] at hx
        rcases ihf _ hx with h1 | h1
        · rcases mem_rootStructs_inner tl fn acc x h1 with h2 | ⟨e, he, hex, hhit⟩
          · exact Or.inl h2
          · exact Or.inr ⟨e, fn, he, hex, hhit⟩
        · exact Or.inr h1
      · have hrs2 : strEndsWith fn ".rs" = false := by
          cases hr : strEndsWith fn ".rs"
          · rfl
          · exact absurd hr hrs
        simp only [hrs2, Bool.false_eq_true, if_false] at hx
        rcases ihf _ hx with h1 | h1
        · exact Or.inl h1
        · exact Or.inr h1
  rcases houter _ _ h with h1 | ⟨e, fname, he, hex, hhit⟩
  · simp at h1
  · refine ⟨e, he, hex, ?_⟩
    unfold isRootHit at hhit
    have h2 := (Bool.and_eq_true _ _).mp hhit |>.2
    have h3 := (Bool.and_eq_true _ _).mp h2 |>.1
    simpa using h3

/-- The decision structure of `should_box_field` over its atomic Boolean
conditions, mirroring the source's early-return chain. -/
def decisionShape (prim box alw pf vec pats sf sok nf im dok : Bool) : Bool :=
  if prim then false
  else if box then false
  else if alw then true
  else if pf && vec && pats then true
  else if sf && sok && vec then true
  else if nf && vec && im then dok
  else false

theorem shouldBox_shape (cfg : BoxConfig) (structs : StructsMap) (counts : Counts)
    (memo : Memo) (sn ft core : String) :
    (shouldBoxField cfg structs counts memo sn ft core).1
      = decisionShape (isPrimitive core) (strContains ft "Box<")
          (cfg.always_box_types.contains core) cfg.use_pattern_matching
          (strContains ft "Vec<")
          (cfg.box_in_vec_patterns.any (fun p => p core)
            || cfg.box_vec_if_parent_matches.any (fun p => p sn))
          cfg.use_size_heuristic
          (match lookupKV counts core with
           | some cnt => decide (cfg.min_fields_to_box ≤ cnt)
           | none => false)
          cfg.use_nesting_analysis (keyMem structs core)
          (decide (cfg.max_nesting_depth
            ≤ (calcNestingDepth structs (structsBound structs) [] memo core).1)) := by
  unfold shouldBoxField decisionShape
  split_ifs <;> rfl

theorem decisionShape_or (prim box alw pf vec pats sf sok nf im dok : Bool) :
    decisionShape prim box alw pf vec pats sf sok nf im dok
      = ((!prim && !box)
          && (alw || pf && (vec && pats) || sf && (sok && vec)
              || nf && (vec && im && dok))) := by
  revert prim box alw pf vec pats sf sok nf im dok
  decide

/-! ## Claim theorems -/

/-- C1 (counterexample): `FooV01` ends in the version suffix `V01` and is
defined in two files, yet the consolidation pass classifies it frequent and
relocates it — the version-suffix/marker disjunction of the root heuristic
never keeps a multi-file type, because the inner check demands a single
occurrence. -/
theorem c1_counterexample :
    keyMem (printSummaryFrequent (typeLocations c1Corpus) 1) "FooV01" = true
    ∧ strEndsWith "FooV01" "V01" = true
    ∧ typeLocations c1Corpus = [("FooV01", ["a.rs", "b.rs"])]
    ∧ rootStructs (typeLocations c1Corpus) = [] := by
  refine ⟨rfl, rfl, rfl, rfl⟩

/-- C1 (amended): a type definition is kept in its original file if and only
if it is the sole occurrence of its name in the corpus: an entry of the
corpus type map is classified frequent (relocated) exactly when it occurs in
more than one location, the version-suffix and marker conditions adding no
exclusions for multi-file types. -/
theorem c1_amended_root_exclusion :
    ∀ (c : Corpus2) (n : String) (locs : List String) (t : Int),
      (n, locs) ∈ typeLocations c →
      ((n, locs) ∈ printSummaryFrequent (typeLocations c) t ↔ 1 < locs.length) := by
  intro c n locs t hmem
  unfold printSummaryFrequent
  rw [List.mem_filter]
  constructor
  · rintro ⟨_, hpred⟩
    have h2 := ((Bool.and_eq_true _ _).mp hpred).2
    exact of_decide_eq_true h2
  · intro hlen
    refine ⟨hmem, ?_⟩
    have hroot : ¬ n ∈ rootStructs (typeLocations c) := by
      intro hr
      obtain ⟨e, he, hex, hlen1⟩ := mem_rootStructs _ _ hr
      obtain ⟨a, b⟩ := e
      simp only at hex hlen1
      subst hex
      have hb : b = locs := nodup_keys_eq (typeLocations c) (typeLocations_nodup c) he hmem
      rw [hb] at hlen1
      omega
    have hc : (rootStructs (typeLocations c)).contains n = false := containsStr_false _ _ hroot
    simp [hc, hlen, hroot]

/-- C1 (witness): `Party`, duplicated across three files, is frequent. -/
theorem c1_witness :
    ("Party", ["a.rs", "b.rs", "c.rs"]) ∈ printSummaryFrequent (typeLocations partyCorpus) 1
      ↔ 1 < (["a.rs", "b.rs", "c.rs"] : List String).length := by
  exact c1_amended_root_exclusion partyCorpus "Party" ["a.rs", "b.rs", "c.rs"] 1 (by decide)

/-- C2 (counterexample): on the two-type cycle A ↔ B, the memoized depth of B
is 1 when A is queried first but 2 when B is queried first, while the
specification's (path-sensitive, empty-path) definition gives 2 — so the
memoized value does not equal the definition regardless of query order. -/
theorem c2_counterexample :
    lookupKV (runQueries (structsOfFile cycFile) ["A", "B"]) "B" = some 1
    ∧ lookupKV (runQueries (structsOfFile cycFile) ["B", "A"]) "B" = some 2
    ∧ specDepthPath (structsOfFile cycFile) 3 [] "B" = 2 := by
  refine ⟨rfl, rfl, rfl⟩

/-- C2 (amended): restricted to acyclic corpora (those admitting a rank
function that strictly decreases along resolved non-primitive references),
every computed depth — whether returned directly from an empty memo or read
from the memo after any sequence of queries — equals the specification's
recurrence `depth(T) = 1 + max(depth(C))` over mapped non-primitive children
(0 when there are none or the child is unresolved); in particular the chain
A → B → C with C primitive-only yields depths 2, 1, 0 under every query
order. -/
theorem c2_amended_acyclic_depth :
    (∀ (structs : StructsMap) (rk : String → Nat), RankOK structs rk →
      (∀ n : String,
        (calcNestingDepth structs (structsBound structs) [] [] n).1
          = specNestingDepth structs (rk n + 1) n)
      ∧ (∀ (qs : List String) (n : String) (d : Nat),
          lookupKV (runQueries structs qs) n = some d →
            d = specNestingDepth structs (rk n + 1) n))
    ∧ (permsABC.all (fun qs =>
        lookupKV (runQueries (structsOfFile chainFile) qs) "A" == some 2
        && lookupKV (runQueries (structsOfFile chainFile) qs) "B" == some 1
        && lookupKV (runQueries (structsOfFile chainFile) qs) "C" == some 0)) = true := by
  constructor
  · intro structs rk H
    constructor
    · intro n
      exact (calc_spec structs rk H (structsBound structs) [] [] n (uc_lt_bound structs)
        (memoOK_nil structs rk) (visOK_nil structs rk n)).1
    · intro qs n d hd
      exact runQueries_memoOK structs rk H qs n d hd
  · rfl

/-- C2 (witness): the amended theorem applied to the concrete acyclic chain
with the rank A ↦ 2, B ↦ 1, C ↦ 0. -/
theorem c2_witness :
    (calcNestingDepth (structsOfFile chainFile) (structsBound (structsOfFile chainFile))
        [] [] "A").1
      = specNestingDepth (structsOfFile chainFile) (chainRank "A" + 1) "A" :=
  ((c2_amended_acyclic_depth.1 (structsOfFile chainFile) chainRank (by
    intro e he fld hfld hp hk
    have hs : structsOfFile chainFile
        = [("A", [("f", "B", "B")]), ("B", [("g", "C", "C")]),
           ("C", [("h", "String", "String")])] := rfl
    rw [hs] at he
    simp only [List.mem_cons, List.not_mem_nil, or_false] at he
    rcases he with rfl | rfl | rfl
    · simp only [List.mem_cons, List.not_mem_nil, or_false] at hfld
      subst hfld
      decide
    · simp only [List.mem_cons, List.not_mem_nil, or_false] at hfld
      subst hfld
      decide
    · simp only [List.mem_cons, List.not_mem_nil, or_false] at hfld
      subst hfld
      exact absurd hp (by decide))).1) "A"

/-- C3 (counterexample): the same two-file corpus processed in the two
possible orders gives different final contents for the same file: when the
file defining `Big` is processed first, its field count is already in the
analyzer's accumulated `struct_fields_count` when `S` is analyzed, and
`S.x` is boxed; in the opposite order it is not. -/
theorem c3_counterexample :
    (passOutputFiles (indirectionPass cfgSizeOnly [fileBig, fileS])).get? 1
        = some [("S", [("x", "Vec<Box<Big>>")])]
    ∧ (passOutputFiles (indirectionPass cfgSizeOnly [fileS, fileBig])).get? 0
        = some [("S", [("x", "Vec<Big>")])] := by
  refine ⟨rfl, rfl⟩

/-- C3 (amended): within one invocation each file is read, analyzed and
written before the next file is processed; the first-processed file's result
is that of a single-file run, but the analyzer's accumulated field-count map
and depth memo carry over to later files, so the final contents can depend
on the processing order. -/
theorem c3_amended_sequential :
    (∀ (cfg : BoxConfig) (f : FileT) (rest : List FileT),
        (indirectionPass cfg (f :: rest)).2.head? = (indirectionPass cfg [f]).2.head?)
    ∧ (∃ (cfg : BoxConfig) (fa fb : FileT),
        (passOutputFiles (indirectionPass cfg [fa, fb])).get? 1
          ≠ (passOutputFiles (indirectionPass cfg [fb, fa])).get? 0) := by
  constructor
  · intro cfg f rest
    simp [indirectionPass, passFiles]
  · exact ⟨cfgSizeOnly, fileBig, fileS, by decide⟩

/-- C4 (code evaluation): a corpus holding a single lowercase-named
definition `foo` is left entirely unchanged by the consolidation pass — no
lowercase definition is ever deleted, because `scan_rust_files` returns its
`lowercase_matches` list empty on every input, despite its docstring
promising lowercase types for removal. -/
theorem c4_code_evaluation :
    (consolidationMain (some [("a.rs", ["foo"])]) 1 []).corpus = [("a.rs", ["foo"])]
    ∧ (∀ c : Corpus2, scanLowercaseMatches c = []) :=
  ⟨rfl, fun _ => rfl⟩

/-- C7 (code evaluation): on a body containing a nested closing brace before
the true end, the source's capture rule (`\x7b[^\x7d]*\x7d`) stops at the first
closing brace, while the capture the spec requires extends to the matching
brace; the two differ. -/
theorem c7_code_evaluation :
    bodyCapture c7Body = some " pub a: T\x7bU".toList
    ∧ specBalancedBodyCapture c7Body 1 = some " pub a: T\x7bU\x7d, pub b: X, ".toList
    ∧ bodyCapture c7Body ≠ specBalancedBodyCapture c7Body 1 := by
  refine ⟨rfl, rfl, by decide⟩

/-- C8 (counterexample): the consolidation tool invoked on a non-existent
directory does not return exit code 1: the scan prints a diagnostic and
returns empty results, and `main` falls through to exit code 0. -/
theorem c8_counterexample : ¬ ((consolidationMain none 1 []).exitCode = 1) := by
  decide

/-- C8 (amended): the indirection tool exits 1 on a missing or invalid
directory and 0 otherwise; the consolidation tool exits 0 both on success
and on a missing directory (it prints a diagnostic instead, returning 1 only
from its exception handler). -/
theorem c8_amended_exit_codes :
    (∀ cfg : BoxConfig, (indirectionMain cfg none).1 = 1)
    ∧ (∀ (cfg : BoxConfig) (c : List FileT), (indirectionMain cfg (some c)).1 = 0)
    ∧ (∀ (t : Int) (em : List String), (consolidationMain none t em).exitCode = 0)
    ∧ (∀ (c : Corpus2) (t : Int) (em : List String),
        (consolidationMain (some c) t em).exitCode = 0) := by
  refine ⟨fun cfg => rfl, fun cfg c => rfl, fun t em => rfl, fun c t em => ?_⟩
  show (if !(printSummaryFrequent (typeLocations c) t).isEmpty
        || !(scanLowercaseMatches c).isEmpty then
      ({ exitCode := 0, corpus := removeDup (printSummaryFrequent (typeLocations c) t) c,
         modNames := if (printSummaryFrequent (typeLocations c) t).isEmpty then em
           else newModNames em (printSummaryFrequent (typeLocations c) t) } : ConsResult)
    else { exitCode := 0, corpus := c, modNames := em }).exitCode = 0
  split <;> rfl

/-- C5 (counterexample): a field whose core type sits in the allow-list and
which matches no other strategy (its type is not sequence-wrapped) is boxed
under every assignment of the three strategy enable flags — the allow-list
strategy has no enable flag, so no flag disables it, contradicting "five
independently toggleable strategies" whose single firing strategy can be
disabled. -/
theorem c5_counterexample :
    ([false, true].all (fun p => [false, true].all (fun s => [false, true].all (fun n =>
        (shouldBoxField (cfgAlwaysT p s n) [] [] [] "S" "T" "T").1)))) = true
    ∧ isPrimitive "T" = false
    ∧ strContains "T" "Vec<" = false
    ∧ stratAlwaysBox (cfgAlwaysT false false false) "T" = true := by
  refine ⟨rfl, rfl, rfl, rfl⟩

/-- C5 (amended): the boxing decision is the OR of the five strategies as
gated in the source: primitive or already-boxed fields are never boxed; the
allow-list strategy is unconditional (no enable flag); the element-pattern
and parent-pattern strategies are gated together by the one
pattern-matching flag; the size and nesting strategies are gated by their
own flags. A field matching none of the strategies is not boxed, and for a
field matching exactly one flag-gated strategy the decision is true with
that flag enabled and false with it disabled, all other configuration held
fixed. -/
theorem c5_amended_strategies :
    (∀ (cfg : BoxConfig) (structs : StructsMap) (counts : Counts) (memo : Memo)
        (sn ft core : String),
      (shouldBoxField cfg structs counts memo sn ft core).1
        = ((!(isPrimitive core) && !(strContains ft "Box<"))
            && (stratAlwaysBox cfg core
                || cfg.use_pattern_matching && stratVecPattern cfg sn ft core
                || cfg.use_size_heuristic && stratSize cfg counts ft core
                || cfg.use_nesting_analysis && stratNesting cfg structs memo ft core)))
    ∧ (∀ (cfg : BoxConfig) (structs : StructsMap) (counts : Counts) (memo : Memo)
        (sn ft core : String),
        stratAlwaysBox cfg core = false → stratVecPattern cfg sn ft core = false →
        stratSize cfg counts ft core = false → stratNesting cfg structs memo ft core = false →
        (shouldBoxField cfg structs counts memo sn ft core).1 = false)
    ∧ (∀ (cfg : BoxConfig) (structs : StructsMap) (counts : Counts) (memo : Memo)
        (sn ft core : String),
        isPrimitive core = false → strContains ft "Box<" = false →
        stratAlwaysBox cfg core = false →
        stratSize cfg counts ft core = false → stratNesting cfg structs memo ft core = false →
        stratVecPattern cfg sn ft core = true →
        (shouldBoxField { cfg with use_pattern_matching := true }
            structs counts memo sn ft core).1 = true
        ∧ (shouldBoxField { cfg with use_pattern_matching := false }
            structs counts memo sn ft core).1 = false)
    ∧ (∀ (cfg : BoxConfig) (structs : StructsMap) (counts : Counts) (memo : Memo)
        (sn ft core : String),
        isPrimitive core = false → strContains ft "Box<" = false →
        stratAlwaysBox cfg core = false →
        stratVecPattern cfg sn ft core = false → stratNesting cfg structs memo ft core = false →
        stratSize cfg counts ft core = true →
        (shouldBoxField { cfg with use_size_heuristic := true }
            structs counts memo sn ft core).1 = true
        ∧ (shouldBoxField { cfg with use_size_heuristic := false }
            structs counts memo sn ft core).1 = false)
    ∧ (∀ (cfg : BoxConfig) (structs : StructsMap) (counts : Counts) (memo : Memo)
        (sn ft core : String),
        isPrimitive core = false → strContains ft "Box<" = false →
        stratAlwaysBox cfg core = false →
        stratVecPattern cfg sn ft core = false → stratSize cfg counts ft core = false →
        stratNesting cfg structs memo ft core = true →
        (shouldBoxField { cfg with use_nesting_analysis := true }
            structs counts memo sn ft core).1 = true
        ∧ (shouldBoxField { cfg with use_nesting_analysis := false }
            structs counts memo sn ft core).1 = false) := by
  have key : ∀ (cfg : BoxConfig) (structs : StructsMap) (counts : Counts) (memo : Memo)
      (sn ft core : String),
      (shouldBoxField cfg structs counts memo sn ft core).1
        = ((!(isPrimitive core) && !(strContains ft "Box<"))
            && (stratAlwaysBox cfg core
                || cfg.use_pattern_matching && stratVecPattern cfg sn ft core
                || cfg.use_size_heuristic && stratSize cfg counts ft core
                || cfg.use_nesting_analysis && stratNesting cfg structs memo ft core)) := by
    intro cfg structs counts memo sn ft core
    rw [shouldBox_shape, decisionShape_or]
    rfl
  refine ⟨key, ?_, ?_, ?_, ?_⟩
  · intro cfg structs counts memo sn ft core hA hV hS hN
    rw [key]
    simp [hA, hV, hS, hN]
  · intro cfg structs counts memo sn ft core hp hb hA hS hN hV
    constructor <;>
    · rw [key]
      simp only [
        show ∀ b, stratAlwaysBox { cfg with use_pattern_matching := b } core
          = stratAlwaysBox cfg core from fun _ => rfl,
        show ∀ b, stratVecPattern { cfg with use_pattern_matching := b } sn ft core
          = stratVecPattern cfg sn ft core from fun _ => rfl,
        show ∀ b, stratSize { cfg with use_pattern_matching := b } counts ft core
          = stratSize cfg counts ft core from fun _ => rfl,
        show ∀ b, stratNesting { cfg with use_pattern_matching := b } structs memo ft core
          = stratNesting cfg structs memo ft core from fun _ => rfl,
        show ∀ b, ({ cfg with use_pattern_matching := b } : BoxConfig).use_pattern_matching
          = b from fun _ => rfl,
        show ∀ b, ({ cfg with use_pattern_matching := b } : BoxConfig).use_size_heuristic
          = cfg.use_size_heuristic from fun _ => rfl,
        show ∀ b, ({ cfg with use_pattern_matching := b } : BoxConfig).use_nesting_analysis
          = cfg.use_nesting_analysis from fun _ => rfl]
      simp [hp, hb, hA, hS, hN, hV]
  · intro cfg structs counts memo sn ft core hp hb hA hV hN hS
    constructor <;>
    · rw [key]
      simp only [
        show ∀ b, stratAlwaysBox { cfg with use_size_heuristic := b } core
          = stratAlwaysBox cfg core from fun _ => rfl,
        show ∀ b, stratVecPattern { cfg with use_size_heuristic := b } sn ft core
          = stratVecPattern cfg sn ft core from fun _ => rfl,
        show ∀ b, stratSize { cfg with use_size_heuristic := b } counts ft core
          = stratSize cfg counts ft core from fun _ => rfl,
        show ∀ b, stratNesting { cfg with use_size_heuristic := b } structs memo ft core
          = stratNesting cfg structs memo ft core from fun _ => rfl,
        show ∀ b, ({ cfg with use_size_heuristic := b } : BoxConfig).use_size_heuristic
          = b from fun _ => rfl,
        show ∀ b, ({ cfg with use_size_heuristic := b } : BoxConfig).use_pattern_matching
          = cfg.use_pattern_matching from fun _ => rfl,
        show ∀ b, ({ cfg with use_size_heuristic := b } : BoxConfig).use_nesting_analysis
          = cfg.use_nesting_analysis from fun _ => rfl]
      simp [hp, hb, hA, hS, hN, hV]
  · intro cfg structs counts memo sn ft core hp hb hA hV hS hN
    constructor <;>
    · rw [key]
      simp only [
        show ∀ b, stratAlwaysBox { cfg with use_nesting_analysis := b } core
          = stratAlwaysBox cfg core from fun _ => rfl,
        show ∀ b, stratVecPattern { cfg with use_nesting_analysis := b } sn ft core
          = stratVecPattern cfg sn ft core from fun _ => rfl,
        show ∀ b, stratSize { cfg with use_nesting_analysis := b } counts ft core
          = stratSize cfg counts ft core from fun _ => rfl,
        show ∀ b, stratNesting { cfg with use_nesting_analysis := b } structs memo ft core
          = stratNesting cfg structs memo ft core from fun _ => rfl,
        show ∀ b, ({ cfg with use_nesting_analysis := b } : BoxConfig).use_nesting_analysis
          = b from fun _ => rfl,
        show ∀ b, ({ cfg with use_nesting_analysis := b } : BoxConfig).use_pattern_matching
          = cfg.use_pattern_matching from fun _ => rfl,
        show ∀ b, ({ cfg with use_nesting_analysis := b } : BoxConfig).use_size_heuristic
          = cfg.use_size_heuristic from fun _ => rfl]
      simp [hp, hb, hA, hS, hN, hV]

/-- C5 (witness): the amended theorem at a concrete sequence-wrapped field
matching only the element-pattern strategy. -/
theorem c5_witness :
    (shouldBoxField { cfgSizeOnly with
        box_in_vec_patterns := [fun n => strEndsWith n "9"],
        use_pattern_matching := true } [] [] [] "S" "Vec<T9>" "T9").1 = true
    ∧ (shouldBoxField { cfgSizeOnly with
        box_in_vec_patterns := [fun n => strEndsWith n "9"],
        use_pattern_matching := false } [] [] [] "S" "Vec<T9>" "T9").1 = false :=
  c5_amended_strategies.2.2.1
    { cfgSizeOnly with box_in_vec_patterns := [fun n => strEndsWith n "9"] }
    [] [] [] "S" "Vec<T9>" "T9" rfl rfl rfl rfl rfl rfl

/-- C6 (counterexample): the pass is not idempotent: on a corpus with a
reference cycle and depth threshold 2, the first run boxes `P1.a`
(memoizing a truncated depth for `B`), and the second run — where the
already-boxed `P1.a` no longer triggers the depth query — computes a fresh,
larger depth for `B` and reports one further change, modifying the file
again. -/
theorem c6_counterexample :
    passTotalChanges (indirectionPass cfgNestOnly
        (passOutputFiles (indirectionPass cfgNestOnly [file6]))) = 1
    ∧ passOutputFiles (indirectionPass cfgNestOnly
        (passOutputFiles (indirectionPass cfgNestOnly [file6])))
      ≠ passOutputFiles (indirectionPass cfgNestOnly [file6]) := by
  refine ⟨rfl, by decide⟩

/-- C6 (amended): a field whose declared type already contains the `Box<`
wrapper is never selected for boxing (the decision is false with the memo
untouched), and a file all of whose fields are already wrapped is returned
unchanged with zero reported changes by a further pass. The pass is not
idempotent in general, since skipping already-boxed fields changes the
order in which nesting depths are memoized. -/
theorem c6_amended_boxed_untouched :
    (∀ (cfg : BoxConfig) (structs : StructsMap) (counts : Counts) (memo : Memo)
        (sn ft core : String), strContains ft "Box<" = true →
        shouldBoxField cfg structs counts memo sn ft core = (false, memo))
    ∧ (∀ (cfg : BoxConfig) (counts : Counts) (memo : Memo) (f : FileT),
        (∀ st ∈ f, ∀ fl ∈ st.2, strContains fl.2 "Box<" = true) →
        (applyBoxingFile cfg counts memo f).1 = f
        ∧ (applyBoxingFile cfg counts memo f).2.2.2 = 0) := by
  constructor
  · intro cfg structs counts memo sn ft core h
    exact shouldBox_boxed cfg structs counts memo sn ft core h
  · intro cfg counts memo f hall
    have hstep : ∀ acc : List ((String × String) × String) × Memo, acc.1 = [] →
        ((structsOfFile f).foldl
          (editStructStep cfg (structsOfFile f) (countsUpdate counts f)) acc).1 = [] := by
      intro acc hacc
      refine foldl_preserve_mem
        (P := fun a => a.1 = ([] : List ((String × String) × String)))
        (structsOfFile f) (editStructStep cfg (structsOfFile f) (countsUpdate counts f))
        ?_ acc hacc
      intro a se hse ha
      unfold editStructStep
      refine foldl_preserve_mem
        (P := fun a2 => a2.1 = ([] : List ((String × String) × String)))
        se.2 (editFieldStep cfg (structsOfFile f) (countsUpdate counts f) se.1)
        ?_ a ha
      intro a2 fld hfld ha2
      obtain ⟨st, hst, hsteq⟩ := structsOfFile_mem f se hse
      have hfld2 : fld ∈ parseFieldsP st.2 := by
        rw [hsteq] at hfld
        exact hfld
      obtain ⟨fl, hfl, hfleq⟩ := parseFieldsP_mem st.2 fld hfld2
      have hbox : strContains fld.2.1 "Box<" = true := by
        rw [hfleq]
        exact hall st hst fl hfl
      unfold editFieldStep
      rw [shouldBox_boxed cfg (structsOfFile f) (countsUpdate counts f) a2.2 se.1
        fld.2.1 fld.2.2 hbox]
      simpa using ha2
    have hstep0 := hstep ([], memo) rfl
    constructor
    · show (f.map (fun st => (st.1, st.2.map (fun fl =>
        match lookupEdit ((structsOfFile f).foldl
            (editStructStep cfg (structsOfFile f) (countsUpdate counts f)) ([], memo)).1
          (st.1, fl.1) with
        | some nft => (fl.1, nft)
        | none => fl)))) = f
      rw [hstep0]
      apply map_id_of_eq
      intro st
      rw [map_id_of_eq (fun fl =>
        match lookupEdit ([] : List ((String × String) × String)) (st.1, fl.1) with
        | some nft => (fl.1, nft)
        | none => fl) st.2 (fun fl => rfl)]
    · show ((structsOfFile f).foldl
          (editStructStep cfg (structsOfFile f) (countsUpdate counts f)) ([], memo)).1.length = 0
      rw [hstep0]
      rfl

/-- C6 (witness): the amended theorem at a concrete already-boxed field and
a concrete fully-boxed file. -/
theorem c6_witness :
    shouldBoxField cfgNestOnly [] [] [] "S" "Vec<Box<A>>" "A" = (false, [])
    ∧ (applyBoxingFile cfgNestOnly [] [] [("P", [("a", "Vec<Box<A>>")])]).1
        = [("P", [("a", "Vec<Box<A>>")])]
    ∧ (applyBoxingFile cfgNestOnly [] [] [("P", [("a", "Vec<Box<A>>")])]).2.2.2 = 0 := by
  refine ⟨c6_amended_boxed_untouched.1 cfgNestOnly [] [] [] "S" "Vec<Box<A>>" "A" rfl, ?_, ?_⟩
  · exact (c6_amended_boxed_untouched.2 cfgNestOnly [] [] [("P", [("a", "Vec<Box<A>>")])]
      (by decide)).1
  · exact (c6_amended_boxed_untouched.2 cfgNestOnly [] [] [("P", [("a", "Vec<Box<A>>")])]
      (by decide)).2

/-- C9: the depth computation terminates on every corpus: with fuel at least
`structsBound` (one more than the number of parsed structs) the result is
independent of the fuel, because a revisited name on the current traversal
path contributes 0 instead of recursing; in particular the self-referential
type `A` with a `Vec<A>` field gets the finite depth 1. -/
theorem c9_termination :
    (∀ (structs : StructsMap) (n : String) (fuel : Nat),
        structsBound structs ≤ fuel →
        calcNestingDepth structs fuel [] [] n
          = calcNestingDepth structs (structsBound structs) [] [] n)
    ∧ (calcNestingDepth (structsOfFile selfRefFile)
        (structsBound (structsOfFile selfRefFile)) [] [] "A").1 = 1 := by
  constructor
  · intro structs n fuel hf
    exact calc_fuel_stable structs (structsBound structs) fuel [] [] n
      (uc_lt_bound structs) hf
  · rfl

/-- C9 (witness): any larger fuel gives the same depth for the
self-referential example. -/
theorem c9_witness :
    calcNestingDepth (structsOfFile selfRefFile) 7 [] [] "A"
      = calcNestingDepth (structsOfFile selfRefFile)
          (structsBound (structsOfFile selfRefFile)) [] [] "A" :=
  c9_termination.1 (structsOfFile selfRefFile) "A" 7 (by decide)

/-- C10: the consolidation tool's `typecount` argument is parsed and passed
to `print_summary` but never read: for any two values the classification,
the shared-module content and all file rewrites are identical. -/
theorem c10_typecount_no_effect :
    ∀ (fs : Option Corpus2) (t₁ t₂ : Int) (em : List String),
      consolidationMain fs t₁ em = consolidationMain fs t₂ em := by
  intro fs t₁ t₂ em
  cases fs <;> rfl

end MX
